import Mathlib

/-!
Verification of the router composition and cache-key namespacing core of
`react-safe-query` (src/index.ts), shallowly embedded in Lean.

The embedding models:
* `query` / `mutation` (operation wrappers around the external engine),
* `applyQueryKeyMiddleware` (in-place rewrite of a query leaf's `useQuery`
  slot; leaf objects live in an explicit heap indexed by `Nat` locations),
* `createRouter` (namespace-counter increment plus middleware application),
* `createContext` (the context-tree generator) and the `getData` / `setData`
  / `cancel` / `invalidate` accessors over a query-client model.

JavaScript number-to-string conversion (`routerCount++ + ''`) is modelled by
`RSQ.natToString`, the usual decimal numeral.

The file is organised as the definitions (the embedding) followed by the
theorems about them.
-/

namespace RSQ

/-! ## Definitions -/

/-- Decimal digits of `n`, most significant first, produced with explicit
fuel so that the definition is structurally recursive (`routerCount++ + ''`
in the source produces exactly this decimal numeral). -/
def toDecimalAux : Nat → Nat → List Char
  | 0, _ => []
  | fuel + 1, n =>
    if n < 10 then [Nat.digitChar n]
    else toDecimalAux fuel (n / 10) ++ [Nat.digitChar (n % 10)]

/-- JavaScript `n + ''` for a nonnegative integer: the decimal numeral. -/
def natToString (n : Nat) : String := ⟨toDecimalAux (n + 1) n⟩

/-- Mathlib-facing description of the decimal digit characters of `n`. -/
def decChars (n : Nat) : List Char :=
  if n = 0 then ['0'] else ((Nat.digits 10 n).map Nat.digitChar).reverse

/-- The cache-key prefix computed by the query-key middleware and the
context generator: `routerId + '/' + key` in the source. -/
def fullKeyOf (routerId name : String) : String := routerId ++ "/" ++ name

/-! ### Operation wrappers (`query` / `mutation`, src/index.ts lines 19-57) -/

/-- Presence of the three extra lifecycle callbacks in the options object
(`onSuccess` / `onError` / `onSettled`; each is optional in the source). -/
structure QueryOptions where
  onSuccess : Bool
  onError : Bool
  onSettled : Bool
deriving DecidableEq

/-- Observable callback invocations performed by a wrapped query fetcher. -/
inductive QEvent (ρ ε : Type) where
  | success (r : ρ)
  | error (e : ε)
  | settled (d : Option ρ) (e : Option ε)
deriving DecidableEq

def QEvent.isSettledEvt {ρ ε : Type} : QEvent ρ ε → Bool
  | .settled _ _ => true
  | _ => false

/-- `options?.f`: reads a callback-presence flag from a possibly absent
options object. -/
def optFlag (options : Option QueryOptions) (f : QueryOptions → Bool) : Bool :=
  match options with
  | some o => f o
  | none => false

section WrapperDefs

variable {σ ρ ε μ : Type}

/-- One invocation attempt of the `queryFn` closure built by `query`
(src lines 29-40): run the user fetcher; on success fire `onSuccess` then
`onSettled(result, null)` and return the result; on failure fire `onError`
then `onSettled(undefined, error)` and re-throw. The first component is the
ordered list of callback invocations, the second the value returned to (or
the failure re-raised at) the engine. -/
def runQueryFn (queryFn : σ → Except ε ρ) (options : Option QueryOptions)
    (args : σ) : List (QEvent ρ ε) × Except ε ρ :=
  match queryFn args with
  | .ok result =>
    ((if optFlag options (fun o => o.onSuccess) then [QEvent.success result] else []) ++
      (if optFlag options (fun o => o.onSettled) then [QEvent.settled (some result) none] else []),
      .ok result)
  | .error e =>
    ((if optFlag options (fun o => o.onError) then [QEvent.error e] else []) ++
      (if optFlag options (fun o => o.onSettled) then [QEvent.settled none (some e)] else []),
      .error e)

/-- The call `query.useQuery` hands to the external engine
(`useTanStackQuery({...options, queryKey: [_key, args], queryFn})`):
the passed-through options, the two-part cache key, and the behavior of the
`queryFn` closure. -/
structure EngineQueryCall (σ ρ ε : Type) where
  options : Option QueryOptions
  queryKey : Option String × Option σ
  queryFnTrace : List (QEvent ρ ε)
  queryFnResult : Except ε ρ

/-- The semantic content of a `useQuery` slot: a function of the public
arguments `(args, options)` plus the internal third parameter `_key`
(absent, i.e. `none`, on a public call). -/
def UseQueryFn (σ ρ ε : Type) :=
  σ → Option QueryOptions → Option String → EngineQueryCall σ ρ ε

/-- `query(queryFn).useQuery` (src lines 19-43): emits the engine call with
key `[_key, args]` and the multiplexing fetcher. -/
def query (queryFn : σ → Except ε ρ) : UseQueryFn σ ρ ε :=
  fun args options k =>
    { options := options
      queryKey := (k, some args)
      queryFnTrace := (runQueryFn queryFn options args).1
      queryFnResult := (runQueryFn queryFn options args).2 }

/-- The middleware rewrite (src line 89): the new two-parameter `useQuery`
calls the previous one with the full key pre-bound as third argument. A
previous value that itself ignores its third parameter keeps ignoring it. -/
def wrapUseQuery (originalUseQuery : UseQueryFn σ ρ ε) (fullKey : String) :
    UseQueryFn σ ρ ε :=
  fun args options _ => originalUseQuery args options (some fullKey)

/-- A public `useQuery(args, options)` call: JavaScript supplies no third
argument, so `_key` is `undefined`. -/
def invokeUseQuery (uq : UseQueryFn σ ρ ε) (args : σ)
    (options : Option QueryOptions) : EngineQueryCall σ ρ ε :=
  uq args options none

/-- The call `mutation.useMutation` hands to the external engine
(`useTanStackMutation({...options, mutationFn})`): the passed-through
options and the wrapped mutation function. The engine mutation call carries
no cache key — no field for one exists, mirroring the source, where no key
is computed for mutations. -/
structure EngineMutationCall (σ ρ ε μ : Type) where
  options : Option μ
  mutationFn : σ → Except ε ρ

/-- `mutation(mutationFn).useMutation` (src lines 45-57): delegates to the
engine with `mutationFn: async (args) => { const res = await mutationFn(args);
return res; }`. -/
def mutation (mutationFn : σ → Except ε ρ) :
    Option μ → EngineMutationCall σ ρ ε μ :=
  fun options =>
    { options := options
      mutationFn := fun args => mutationFn args }

end WrapperDefs

/-! ### Route trees, the leaf heap, the middleware and `createRouter`
(src/index.ts lines 85-103)

A value in a routes object is a query wrapper (`'useQuery' in value`), a
mutation wrapper, or an already-composed router instance
(`'useContext' in value`). Query leaves are mutable JavaScript objects whose
`useQuery` slot the middleware rewrites in place; we model the slots as an
explicit heap indexed by object identity (`Nat` locations), so aliasing of
one leaf object between a definition and the returned instance is explicit.
A composed instance `{...routes, useContext: createContext(routes, routerId)}`
is represented by its router id together with the same (shared) entries. -/

mutual

inductive RouteValue where
  | q (lid : Nat)
  | m (mid : Nat)
  | r (routerId : String) (routes : RouteEntries)

inductive RouteEntries where
  | nil
  | cons (name : String) (v : RouteValue) (rest : RouteEntries)

end

def RouteEntries.toList : RouteEntries → List (String × RouteValue)
  | .nil => []
  | .cons n v rest => (n, v) :: rest.toList

section RouterDefs

variable {σ ρ ε : Type}

/-- The store of `useQuery` slots of all query-wrapper objects, indexed by
object identity. -/
def Heap (σ ρ ε : Type) := Nat → UseQueryFn σ ρ ε

/-- In-place assignment `value.useQuery = ...` on the leaf object at `lid`. -/
def updateHeap (h : Heap σ ρ ε) (lid : Nat) (uq : UseQueryFn σ ρ ε) :
    Heap σ ρ ε :=
  fun x => if x = lid then uq else h x

/-- `applyQueryKeyMiddleware(routes, routerId)` (src lines 85-92): for each
entry whose value has a function-valued `useQuery` slot, replace that slot by
the two-parameter wrapper pre-binding `routerId + '/' + key`; mutation
wrappers and nested router instances are skipped. -/
def applyQueryKeyMiddleware (routes : RouteEntries) (routerId : String)
    (h : Heap σ ρ ε) : Heap σ ρ ε :=
  match routes with
  | .nil => h
  | .cons name v rest =>
    match v with
    | .q lid =>
      applyQueryKeyMiddleware rest routerId
        (updateHeap h lid (wrapUseQuery (h lid) (fullKeyOf routerId name)))
    | _ => applyQueryKeyMiddleware rest routerId h

/-- The process-wide `routerCount` counter together with the leaf heap. -/
structure RouterState (σ ρ ε : Type) where
  routerCount : Nat
  heap : Heap σ ρ ε

/-- `createRouter(routes)` (src lines 94-103): `routerId = routerCount++ + ''`,
apply the middleware, and return `{...routes, useContext}` — a shallow copy
sharing the same entry values, whose context accessor is derived from the
same `routes` and `routerId`. -/
def createRouter (routes : RouteEntries) (st : RouterState σ ρ ε) :
    RouteValue × RouterState σ ρ ε :=
  let routerId := natToString st.routerCount
  (RouteValue.r routerId routes,
    { routerCount := st.routerCount + 1
      heap := applyQueryKeyMiddleware routes routerId st.heap })

def routesOfInstance : RouteValue → Option RouteEntries
  | .r _ rs => some rs
  | _ => none

def routerIdOf : RouteValue → Option String
  | .r rid _ => some rid
  | _ => none

/-- Heap locations of the direct query leaves of a definition — exactly the
slots the middleware rewrites. -/
def directQueryLids : RouteEntries → List Nat
  | .nil => []
  | .cons _ (.q lid) rest => lid :: directQueryLids rest
  | .cons _ _ rest => directQueryLids rest

/-- A sequence of `createRouter` calls, returning the router ids in call
order together with the final state. -/
def composeAll (defs : List RouteEntries) (st : RouterState σ ρ ε) :
    List String × RouterState σ ρ ε :=
  match defs with
  | [] => ([], st)
  | d :: ds =>
    let res := createRouter d st
    let rest := composeAll ds res.2
    ((routerIdOf res.1).getD "" :: rest.1, rest.2)

end RouterDefs

/-! ### The query-client model and the context tree generator
(src/index.ts lines 60-81)

The external engine's cache is a key-addressed store; keys are the two-part
values `[prefixOrUndefined, suffixOrUndefined]` the source builds. `cancel`
and `invalidate` are modelled by logging the scoped filter key handed to the
engine. None of these operations receives or invokes any fetcher: their
types do not even mention one. -/

/-- The (only) filter field the accessors rebuild: `filters?.queryKey`. -/
structure QueryFilters (σ : Type) where
  queryKey : Option σ

structure QueryClient (σ ρ : Type) where
  cache : List ((Option String × Option σ) × ρ)
  cancelled : List (Option String × Option σ)
  invalidated : List (Option String × Option σ)

section ClientDefs

variable {σ ρ : Type}

def lookupCache [DecidableEq σ] :
    List ((Option String × Option σ) × ρ) → (Option String × Option σ) → Option ρ
  | [], _ => none
  | (k', v) :: rest, k => if k = k' then some v else lookupCache rest k

def getQueryData [DecidableEq σ] (cl : QueryClient σ ρ)
    (k : Option String × Option σ) : Option ρ :=
  lookupCache cl.cache k

def setQueryData (cl : QueryClient σ ρ) (k : Option String × Option σ)
    (d : ρ) : QueryClient σ ρ :=
  { cl with cache := (k, d) :: cl.cache }

def cancelQueries (cl : QueryClient σ ρ) (k : Option String × Option σ) :
    QueryClient σ ρ :=
  { cl with cancelled := k :: cl.cancelled }

def invalidateQueries (cl : QueryClient σ ρ) (k : Option String × Option σ) :
    QueryClient σ ρ :=
  { cl with invalidated := k :: cl.invalidated }

/-- The `{getData, setData, cancel, invalidate}` object emitted per query
leaf (src lines 69-74). -/
structure ContextAccessor (σ ρ : Type) where
  getData : Option σ → QueryClient σ ρ → Option ρ
  setData : σ → ρ → QueryClient σ ρ → QueryClient σ ρ
  cancel : Option (QueryFilters σ) → QueryClient σ ρ → QueryClient σ ρ
  invalidate : Option (QueryFilters σ) → QueryClient σ ρ → QueryClient σ ρ

/-- The four closures over `baseKey` built by `createContext` for one query
leaf: every operation addresses `[baseKey, suffix]`. -/
def mkContextAccessor [DecidableEq σ] (baseKey : String) :
    ContextAccessor σ ρ :=
  { getData := fun queryKey cl => getQueryData cl (some baseKey, queryKey)
    setData := fun queryKey d cl => setQueryData cl (some baseKey, some queryKey) d
    cancel := fun filters cl =>
      cancelQueries cl (some baseKey, filters.bind (fun fl => fl.queryKey))
    invalidate := fun filters cl =>
      invalidateQueries cl (some baseKey, filters.bind (fun fl => fl.queryKey)) }

end ClientDefs

mutual

inductive ContextValue (σ ρ : Type) where
  | leaf (acc : ContextAccessor σ ρ)
  | node (entries : ContextEntries σ ρ)

inductive ContextEntries (σ ρ : Type) where
  | nil
  | cons (name : String) (c : ContextValue σ ρ) (rest : ContextEntries σ ρ)

end

mutual

/-- One iteration of the `Object.entries(routes).forEach` body of
`createContext`: a query leaf contributes the accessor scoped to
`routerId + '/' + key`; a mutation contributes nothing; a nested router
instance contributes `value.useContext()`, i.e. the context built from the
nested instance's own stored routes and router id. -/
def createContextEntry {σ ρ : Type} [DecidableEq σ] (routerId name : String)
    (v : RouteValue) (restCtx : ContextEntries σ ρ) : ContextEntries σ ρ :=
  match v with
  | .q _ => .cons name (.leaf (mkContextAccessor (fullKeyOf routerId name))) restCtx
  | .m _ => restCtx
  | .r rid' routes' => .cons name (.node (createContext routes' rid')) restCtx

/-- `createContext(routes, routerId)` (src lines 60-81). -/
def createContext {σ ρ : Type} [DecidableEq σ] (routes : RouteEntries)
    (routerId : String) : ContextEntries σ ρ :=
  match routes with
  | .nil => .nil
  | .cons name v rest => createContextEntry routerId name v (createContext rest routerId)

end

/-! Shape erasures used to state the C5 guarantee. `specShapeVal` /
`specShapeEntries` follow the spec's words — "the emitted tree's shape is
exactly the Router Instance's shape minus Mutation leaves" — while
`ctxShapeVal` / `ctxShapeEntries` erase an actual generated context tree;
the two are compared. -/

mutual

inductive ShapeVal where
  | leaf
  | node (es : ShapeEntries)

inductive ShapeEntries where
  | nil
  | cons (name : String) (s : ShapeVal) (rest : ShapeEntries)

end

mutual

/-- Spec-side shape of one route value: query leaves stay, mutation leaves
are absent, nested instances keep their recursive shape. -/
def specShapeVal : RouteValue → Option ShapeVal
  | .q _ => some .leaf
  | .m _ => none
  | .r _ routes => some (.node (specShapeEntries routes))

/-- Spec-side shape of a routes mapping: the instance's shape minus its
mutation leaves. -/
def specShapeEntries : RouteEntries → ShapeEntries
  | .nil => .nil
  | .cons name v rest =>
    match specShapeVal v with
    | some s => .cons name s (specShapeEntries rest)
    | none => specShapeEntries rest

end

mutual

def ctxShapeVal {σ ρ : Type} : ContextValue σ ρ → ShapeVal
  | .leaf _ => .leaf
  | .node es => .node (ctxShapeEntries es)

def ctxShapeEntries {σ ρ : Type} : ContextEntries σ ρ → ShapeEntries
  | .nil => .nil
  | .cons name c rest => .cons name (ctxShapeVal c) (ctxShapeEntries rest)

end

/-- Property access `context[name]` on a generated context object. -/
def lookupCtx {σ ρ : Type} (n : String) :
    ContextEntries σ ρ → Option (ContextValue σ ρ)
  | .nil => none
  | .cons n' c rest => if n = n' then some c else lookupCtx n rest

/-- Concrete single-query definition used for the C3 and C9 evaluations. -/
def oneQueryRoutes : RouteEntries :=
  RouteEntries.cons ("a") (RouteValue.q 0) RouteEntries.nil

/-- Concrete fresh state: counter 0, every leaf slot the un-composed
`query` wrapper of the identity fetcher. -/
def freshState : RouterState Nat Nat Unit :=
  RouterState.mk 0 (fun _ => query (fun k => Except.ok k))

/-- Concrete mixed definition: a direct query leaf, a mutation, and a nested
composed instance with its own query leaf. -/
def demoRoutes : RouteEntries :=
  RouteEntries.cons ("a") (RouteValue.q 0)
    (RouteEntries.cons ("mm") (RouteValue.m 0)
      (RouteEntries.cons ("sub")
        (RouteValue.r ("0") (RouteEntries.cons ("b") (RouteValue.q 1) RouteEntries.nil))
        RouteEntries.nil))

/-! ## Theorems -/

theorem toDecimalAux_eq_decChars :
    ∀ (fuel n : Nat), n < fuel → toDecimalAux fuel n = decChars n := by
  intro fuel
  induction fuel with
  | zero => intro n h; omega
  | succ f ih =>
    intro n h
    by_cases hn : n < 10
    · rcases Nat.eq_zero_or_pos n with h0 | hpos
      · subst h0; simp [toDecimalAux, decChars]; decide
      · rw [toDecimalAux, if_pos hn, decChars, if_neg (Nat.pos_iff_ne_zero.mp hpos)]
        rw [Nat.digits_of_lt 10 n (Nat.pos_iff_ne_zero.mp hpos) hn]
        simp
    · have hn10 : 10 ≤ n := Nat.le_of_not_lt hn
      have hdiv_lt : n / 10 < f := by
        have h1 : n / 10 < n := Nat.div_lt_self (by omega) (by omega)
        omega
      have hdiv_ne : n / 10 ≠ 0 := by omega
      rw [toDecimalAux, if_neg hn, ih _ hdiv_lt]
      unfold decChars
      rw [if_neg hdiv_ne, if_neg (show ¬ n = 0 by omega)]
      rw [Nat.digits_def' (show (1:Nat) < 10 by omega) (show 0 < n by omega)]
      simp

theorem natToString_data (n : Nat) : (natToString n).data = decChars n :=
  toDecimalAux_eq_decChars (n + 1) n (Nat.lt_succ_self n)

theorem digitChar_lt_inj :
    ∀ a < 10, ∀ b < 10, Nat.digitChar a = Nat.digitChar b → a = b := by decide

theorem digitChar_ne_slash : ∀ a < 10, Nat.digitChar a ≠ '/' := by decide

theorem slash_not_mem_decChars (n : Nat) : '/' ∉ decChars n := by
  unfold decChars
  by_cases h : n = 0
  · simp [h]
  · rw [if_neg h]
    intro hmem
    rw [List.mem_reverse, List.mem_map] at hmem
    obtain ⟨d, hd, hchar⟩ := hmem
    exact digitChar_ne_slash d (Nat.digits_lt_base (by omega) hd) hchar

theorem map_digitChar_inj :
    ∀ (l1 l2 : List Nat), (∀ d ∈ l1, d < 10) → (∀ d ∈ l2, d < 10) →
      l1.map Nat.digitChar = l2.map Nat.digitChar → l1 = l2 := by
  intro l1
  induction l1 with
  | nil => intro l2 _ _ h; cases l2 <;> simp_all
  | cons a as ih =>
    intro l2 h1 h2 h
    cases l2 with
    | nil => simp_all
    | cons b bs =>
      simp only [List.map_cons, List.cons.injEq] at h
      have ha : a = b :=
        digitChar_lt_inj a (h1 a (List.mem_cons_self a as)) b
          (h2 b (List.mem_cons_self b bs)) h.1
      have hrest : as = bs :=
        ih bs (fun d hd => h1 d (List.mem_cons_of_mem a hd))
          (fun d hd => h2 d (List.mem_cons_of_mem b hd)) h.2
      rw [ha, hrest]

theorem decChars_inj {n m : Nat} (h : decChars n = decChars m) : n = m := by
  unfold decChars at h
  by_cases hn : n = 0 <;> by_cases hm : m = 0
  · omega
  · exfalso
    rw [if_pos hn, if_neg hm] at h
    have h' : (Nat.digits 10 m).map Nat.digitChar = ['0'] := by
      have := congrArg List.reverse h
      simpa using this.symm
    have hne : Nat.digits 10 m ≠ [] := Nat.digits_ne_nil_iff_ne_zero.mpr hm
    obtain ⟨d, hd⟩ : ∃ d, Nat.digits 10 m = [d] := by
      cases hdig : Nat.digits 10 m with
      | nil => exact absurd hdig hne
      | cons x xs =>
        rw [hdig] at h'
        cases xs with
        | nil => exact ⟨x, rfl⟩
        | cons y ys => simp at h'
    rw [hd] at h'
    simp only [List.map_cons, List.map_nil, List.cons.injEq] at h'
    have hdlt : d < 10 := Nat.digits_lt_base (by omega) (by rw [hd]; exact List.mem_singleton.mpr rfl)
    have hd0 : d = 0 := digitChar_lt_inj d hdlt 0 (by omega) (by rw [h'.1]; rfl)
    have hlast := Nat.getLast_digit_ne_zero 10 hm
    rw [hd] at hne
    have : (Nat.digits 10 m).getLast (Nat.digits_ne_nil_iff_ne_zero.mpr hm) = d := by
      simp [hd]
    omega
  · exfalso
    rw [if_neg hn, if_pos hm] at h
    have h' : (Nat.digits 10 n).map Nat.digitChar = ['0'] := by
      have := congrArg List.reverse h
      simpa using this
    have hne : Nat.digits 10 n ≠ [] := Nat.digits_ne_nil_iff_ne_zero.mpr hn
    obtain ⟨d, hd⟩ : ∃ d, Nat.digits 10 n = [d] := by
      cases hdig : Nat.digits 10 n with
      | nil => exact absurd hdig hne
      | cons x xs =>
        rw [hdig] at h'
        cases xs with
        | nil => exact ⟨x, rfl⟩
        | cons y ys => simp at h'
    rw [hd] at h'
    simp only [List.map_cons, List.map_nil, List.cons.injEq] at h'
    have hdlt : d < 10 := Nat.digits_lt_base (by omega) (by rw [hd]; exact List.mem_singleton.mpr rfl)
    have hd0 : d = 0 := digitChar_lt_inj d hdlt 0 (by omega) (by rw [h'.1]; rfl)
    have hlast := Nat.getLast_digit_ne_zero 10 hn
    have : (Nat.digits 10 n).getLast (Nat.digits_ne_nil_iff_ne_zero.mpr hn) = d := by
      simp [hd]
    omega
  · rw [if_neg hn, if_neg hm] at h
    have h' := List.reverse_injective h
    have hmap := map_digitChar_inj (Nat.digits 10 n) (Nat.digits 10 m)
      (fun d hd => Nat.digits_lt_base (by omega) hd)
      (fun d hd => Nat.digits_lt_base (by omega) hd) h'
    exact Nat.digits_inj_iff.mp hmap

theorem natToString_inj {n m : Nat} (h : natToString n = natToString m) : n = m := by
  apply decChars_inj
  rw [← natToString_data, ← natToString_data, h]

theorem slash_not_mem_natToString (n : Nat) : '/' ∉ (natToString n).data := by
  rw [natToString_data]; exact slash_not_mem_decChars n

theorem append_slash_inj :
    ∀ (a b x y : List Char), '/' ∉ a → '/' ∉ b →
      a ++ '/' :: x = b ++ '/' :: y → a = b ∧ x = y := by
  intro a
  induction a with
  | nil =>
    intro b x y _ hb h
    cases b with
    | nil => simpa using h
    | cons c cs =>
      exfalso
      simp only [List.nil_append, List.cons_append, List.cons.injEq] at h
      exact hb (h.1 ▸ List.mem_cons_self c cs)
  | cons c cs ih =>
    intro b x y ha hb h
    cases b with
    | nil =>
      exfalso
      simp only [List.cons_append, List.nil_append, List.cons.injEq] at h
      exact ha (h.1.symm ▸ List.mem_cons_self c cs)
    | cons d ds =>
      simp only [List.cons_append, List.cons.injEq] at h
      have := ih ds x y (fun hm => ha (List.mem_cons_of_mem c hm))
        (fun hm => hb (List.mem_cons_of_mem d hm)) h.2
      exact ⟨by rw [h.1, this.1], this.2⟩

theorem fullKeyOf_data (r n : String) :
    (fullKeyOf r n).data = r.data ++ '/' :: n.data := by
  simp [fullKeyOf, String.data_append]

theorem fullKeyOf_inj {r1 r2 n1 n2 : String}
    (h1 : '/' ∉ r1.data) (h2 : '/' ∉ r2.data)
    (h : fullKeyOf r1 n1 = fullKeyOf r2 n2) : r1 = r2 ∧ n1 = n2 := by
  have hd := congrArg String.data h
  rw [fullKeyOf_data, fullKeyOf_data] at hd
  obtain ⟨hr, hn⟩ := append_slash_inj _ _ _ _ h1 h2 hd
  exact ⟨String.ext hr, String.ext hn⟩

/-- C1 — Key-prefix uniqueness: distinct (namespace id, operation name)
pairs — different names under one router, or any names under two routers
with distinct ids — yield distinct cache-key prefix strings. -/
theorem queryKey_prefixes_distinct (i j : Nat) (a b : String)
    (h : (i = j ∧ a ≠ b) ∨ i ≠ j) :
    fullKeyOf (natToString i) a ≠ fullKeyOf (natToString j) b := by
  intro heq
  obtain ⟨hr, hn⟩ := fullKeyOf_inj (slash_not_mem_natToString i)
    (slash_not_mem_natToString j) heq
  rcases h with ⟨hij, hab⟩ | hij
  · exact hab hn
  · exact hij (natToString_inj hr)

/-- Witness for C1 at a concrete input. -/
theorem queryKey_prefixes_distinct_witness :
    ((0 = 0 ∧ "x" ≠ "y") ∨ (0 : Nat) ≠ 0) ∧
      fullKeyOf (natToString 0) "x" ≠ fullKeyOf (natToString 0) "y" :=
  ⟨Or.inl ⟨rfl, by decide⟩,
    queryKey_prefixes_distinct 0 0 "x" "y" (Or.inl ⟨rfl, by decide⟩)⟩

section WrapperTheorems

variable {σ ρ ε μ : Type}

/-- C4 — Query lifecycle multiplexing: per invocation attempt exactly one of
the success/failure branches runs; on success the trace is
`onSuccess(result)` then `onSettled(result, null)` (each if present) and the
result is returned; on failure it is `onError(error)` then
`onSettled(undefined, error)` (each if present) and the failure is re-raised
to the engine; `onSettled` fires exactly once per attempt (when present),
after `onSuccess`/`onError`. -/
theorem queryFn_lifecycle (queryFn : σ → Except ε ρ)
    (options : Option QueryOptions) (args : σ) :
    (runQueryFn queryFn options args).2 = queryFn args ∧
    ((∃ r, queryFn args = Except.ok r ∧
        (runQueryFn queryFn options args).1 =
          (if optFlag options (fun o => o.onSuccess) then [QEvent.success r] else []) ++
          (if optFlag options (fun o => o.onSettled) then [QEvent.settled (some r) none] else [])) ∨
      (∃ e, queryFn args = Except.error e ∧
        (runQueryFn queryFn options args).1 =
          (if optFlag options (fun o => o.onError) then [QEvent.error e] else []) ++
          (if optFlag options (fun o => o.onSettled) then [QEvent.settled none (some e)] else []))) ∧
    (runQueryFn queryFn options args).1.countP (fun ev => QEvent.isSettledEvt ev) =
      (if optFlag options (fun o => o.onSettled) then 1 else 0) := by
  cases h : queryFn args with
  | ok r =>
    refine ⟨by simp [runQueryFn, h], Or.inl ⟨r, rfl, by simp [runQueryFn, h]⟩, ?_⟩
    by_cases hs : optFlag options (fun o => o.onSettled) <;>
      by_cases hsu : optFlag options (fun o => o.onSuccess) <;>
        simp [runQueryFn, h, hs, hsu, QEvent.isSettledEvt]
  | error e =>
    refine ⟨by simp [runQueryFn, h], Or.inr ⟨e, rfl, by simp [runQueryFn, h]⟩, ?_⟩
    by_cases hs : optFlag options (fun o => o.onSettled) <;>
      by_cases he : optFlag options (fun o => o.onError) <;>
        simp [runQueryFn, h, hs, he, QEvent.isSettledEvt]

/-- C10 — Un-composed Query key: a query never placed into a composition is
publicly invoked with `_key = undefined`, so its cache key is
`(undefined, args)`; two never-composed queries invoked with equal arguments
therefore produce the identical cache key. -/
theorem uncomposed_query_key (f g : σ → Except ε ρ) (args : σ)
    (o1 o2 : Option QueryOptions) :
    (invokeUseQuery (query f) args o1).queryKey = (none, some args) ∧
    (invokeUseQuery (query f) args o1).queryKey =
      (invokeUseQuery (query g) args o2).queryKey :=
  ⟨rfl, rfl⟩

/-- C8 — Mutation passthrough: the wrapped function is called on the
mutation's variables and its result — or its thrown failure, the `error`
case of `Except` — is propagated unchanged; caller options are passed
through; no cache key is computed (the emitted `EngineMutationCall` has no
key component). -/
theorem mutation_passthrough (f : σ → Except ε ρ) (options : Option μ)
    (args : σ) :
    ((mutation f options).mutationFn args = f args) ∧
    (mutation f options).options = options :=
  ⟨rfl, rfl⟩

end WrapperTheorems

/-- Structural induction over `RouteEntries` alone (the `induction` tactic
does not directly apply to members of a mutual family). -/
theorem RouteEntries.indOn {motive : RouteEntries → Prop}
    (hnil : motive .nil)
    (hcons : ∀ name v rest, motive rest → motive (.cons name v rest)) :
    ∀ es, motive es
  | .nil => hnil
  | .cons n v rest => hcons n v rest (RouteEntries.indOn hnil hcons rest)

section RouterTheorems

variable {σ ρ ε : Type}

theorem mw_frame (routes : RouteEntries) (routerId : String)
    (h : Heap σ ρ ε) (lid : Nat) (hnot : lid ∉ directQueryLids routes) :
    applyQueryKeyMiddleware routes routerId h lid = h lid := by
  induction routes using RouteEntries.indOn generalizing h with
  | hnil => rfl
  | hcons name v rest ih =>
    cases v with
    | q l =>
      have hne : lid ≠ l := by
        intro he; exact hnot (by simp [directQueryLids, he])
      have hrest : lid ∉ directQueryLids rest := by
        intro hm; exact hnot (by simp [directQueryLids, hm])
      rw [applyQueryKeyMiddleware, ih _ hrest]
      simp [updateHeap, hne]
    | m x =>
      have hrest : lid ∉ directQueryLids rest := by
        intro hm; exact hnot (by simp [directQueryLids, hm])
      exact ih _ hrest
    | r a b =>
      have hrest : lid ∉ directQueryLids rest := by
        intro hm; exact hnot (by simp [directQueryLids, hm])
      exact ih _ hrest

theorem mem_directQueryLids {routes : RouteEntries} {n : String} {lid : Nat}
    (hmem : (n, RouteValue.q lid) ∈ routes.toList) :
    lid ∈ directQueryLids routes := by
  induction routes using RouteEntries.indOn with
  | hnil => simp [RouteEntries.toList] at hmem
  | hcons name v rest ih =>
    rw [RouteEntries.toList, List.mem_cons] at hmem
    rcases hmem with he | hm
    · have hv : v = RouteValue.q lid := (congrArg Prod.snd he).symm
      rw [hv]
      simp [directQueryLids]
    · cases v with
      | q l =>
        simp only [directQueryLids, List.mem_cons]
        exact Or.inr (ih hm)
      | m x => simpa [directQueryLids] using ih hm
      | r a b => simpa [directQueryLids] using ih hm

theorem mw_at_mem {routes : RouteEntries} {n : String} {lid : Nat}
    (routerId : String) (h : Heap σ ρ ε)
    (hnodup : (directQueryLids routes).Nodup)
    (hmem : (n, RouteValue.q lid) ∈ routes.toList) :
    applyQueryKeyMiddleware routes routerId h lid =
      wrapUseQuery (h lid) (fullKeyOf routerId n) := by
  induction routes using RouteEntries.indOn generalizing h with
  | hnil => simp [RouteEntries.toList] at hmem
  | hcons name v rest ih =>
    rw [RouteEntries.toList, List.mem_cons] at hmem
    cases v with
    | q l =>
      simp only [directQueryLids, List.nodup_cons] at hnodup
      rcases hmem with he | hm
      · rw [Prod.mk.injEq] at he
        obtain ⟨hn, hv⟩ := he
        injection hv with hl
        subst hl
        rw [applyQueryKeyMiddleware, mw_frame rest routerId _ lid hnodup.1]
        simp [updateHeap, hn]
      · have hne : lid ≠ l := by
          intro he; exact hnodup.1 (he ▸ mem_directQueryLids hm)
        rw [applyQueryKeyMiddleware, ih _ hnodup.2 hm]
        simp [updateHeap, hne]
    | m x =>
      rcases hmem with he | hm
      · exact absurd (congrArg Prod.snd he) (by simp)
      · simp only [directQueryLids] at hnodup
        exact ih _ hnodup hm
    | r a b =>
      rcases hmem with he | hm
      · exact absurd (congrArg Prod.snd he) (by simp)
      · simp only [directQueryLids] at hnodup
        exact ih _ hnodup hm

theorem composeAll_ids (defs : List RouteEntries) (st : RouterState σ ρ ε) :
    (composeAll defs st).1 =
      (List.range' st.routerCount defs.length).map natToString ∧
    (composeAll defs st).2.routerCount = st.routerCount + defs.length := by
  induction defs generalizing st with
  | nil => simp [composeAll]
  | cons d ds ih =>
    obtain ⟨h1, h2⟩ := ih (createRouter d st).2
    refine ⟨?_, ?_⟩
    · show (routerIdOf (createRouter d st).1).getD "" ::
        (composeAll ds (createRouter d st).2).1 = _
      rw [h1]
      simp [createRouter, routerIdOf, List.range'_succ]
    · show (composeAll ds (createRouter d st).2).2.routerCount = _
      rw [h2]
      simp [createRouter]
      omega

/-- C2 — Namespace id assignment: starting from a fresh process
(`routerCount = 0`), a sequence of `createRouter` calls yields the router
ids `0, 1, 2, …` (as decimal strings) in call order; the ids are distinct,
and the counter has been incremented exactly once per call. -/
theorem namespace_ids_assigned_in_order (defs : List RouteEntries)
    (st : RouterState σ ρ ε) (h0 : st.routerCount = 0) :
    (composeAll defs st).1 = (List.range defs.length).map natToString ∧
    ((composeAll defs st).1).Nodup ∧
    (composeAll defs st).2.routerCount = defs.length := by
  obtain ⟨h1, h2⟩ := composeAll_ids defs st
  have hids : (composeAll defs st).1 = (List.range defs.length).map natToString := by
    rw [h1, h0, ← List.range_eq_range']
  refine ⟨hids, ?_, by omega⟩
  rw [hids]
  exact List.Nodup.map (fun a b hab => natToString_inj hab) (List.nodup_range _)

/-- Witness for C2 at a concrete input. -/
theorem namespace_ids_assigned_in_order_witness :
    (RouterState.mk 0 (fun _ => query (fun k : Nat => (Except.ok k : Except Unit Nat)))).routerCount = 0 ∧
    ((composeAll [RouteEntries.nil, RouteEntries.nil]
        (RouterState.mk 0 (fun _ => query (fun k : Nat => (Except.ok k : Except Unit Nat))))).1 =
      (List.range 2).map natToString ∧
    ((composeAll [RouteEntries.nil, RouteEntries.nil]
        (RouterState.mk 0 (fun _ => query (fun k : Nat => (Except.ok k : Except Unit Nat))))).1).Nodup ∧
    (composeAll [RouteEntries.nil, RouteEntries.nil]
        (RouterState.mk 0 (fun _ => query (fun k : Nat => (Except.ok k : Except Unit Nat))))).2.routerCount = 2) :=
  ⟨rfl, namespace_ids_assigned_in_order _ _ rfl⟩

/-- C6 — Middleware frame condition: applying the query-key middleware
rewrites only the `useQuery` slots of the direct query leaves of the
supplied definition. Any other leaf slot — in particular every query leaf
belonging to a nested router instance (as long as that leaf object is not
also a direct leaf of this definition) — is left unchanged, so nested
instances keep the prefixes assigned at their own composition time; mutation
values have no `useQuery` slot and are untouched by construction. -/
theorem middleware_frame (routes : RouteEntries) (routerId : String)
    (h : Heap σ ρ ε) :
    (∀ lid, lid ∉ directQueryLids routes →
      applyQueryKeyMiddleware routes routerId h lid = h lid) ∧
    (∀ nm rid' rs', (nm, RouteValue.r rid' rs') ∈ routes.toList →
      ∀ lid', lid' ∈ directQueryLids rs' → lid' ∉ directQueryLids routes →
        applyQueryKeyMiddleware routes routerId h lid' = h lid') :=
  ⟨fun lid hnot => mw_frame routes routerId h lid hnot,
    fun _ _ _ _ lid' _ hnot => mw_frame routes routerId h lid' hnot⟩

/-- Witness for C6 at a concrete input: a definition with a direct query
leaf at location 0, a mutation, and a nested instance whose own query leaf
lives at location 1; the middleware leaves location 1 unchanged. -/
theorem middleware_frame_witness :
    ((1 : Nat) ∉ directQueryLids demoRoutes) ∧
    applyQueryKeyMiddleware demoRoutes ("1")
      (fun _ => query (fun k : Nat => (Except.ok k : Except Unit Nat))) 1 =
    (fun _ => query (fun k : Nat => (Except.ok k : Except Unit Nat))) 1 :=
  ⟨by decide,
    (middleware_frame _ _ _).1 1 (by decide)⟩

/-- C9 — Composition aliases its input: `createRouter` returns a shallow
copy whose entries are the very same operation objects as the supplied
definition (first conjunct), and the middleware has rewritten the shared
leaf's `useQuery` slot in place, so a public invocation through that leaf —
reached through the original definition or through the returned instance,
both of which resolve to the same heap location — emits the namespaced key
`(routerId + '/' + name, args)`. -/
theorem composition_aliases_definition (routes : RouteEntries)
    (st : RouterState σ ρ ε) (n : String) (lid : Nat) (f : σ → Except ε ρ)
    (args : σ) (options : Option QueryOptions)
    (hmem : (n, RouteValue.q lid) ∈ routes.toList)
    (hnodup : (directQueryLids routes).Nodup)
    (hleaf : st.heap lid = query f) :
    routesOfInstance (createRouter routes st).1 = some routes ∧
    (invokeUseQuery ((createRouter routes st).2.heap lid) args options).queryKey =
      (some (fullKeyOf (natToString st.routerCount) n), some args) := by
  refine ⟨rfl, ?_⟩
  have h1 : (createRouter routes st).2.heap lid =
      wrapUseQuery (st.heap lid) (fullKeyOf (natToString st.routerCount) n) :=
    mw_at_mem _ _ hnodup hmem
  rw [h1, hleaf]
  rfl

/-- Witness for C9 at a concrete input. -/
theorem composition_aliases_definition_witness :
    ((("a"), RouteValue.q 0) ∈ RouteEntries.toList oneQueryRoutes) ∧
    (directQueryLids oneQueryRoutes).Nodup ∧
    freshState.heap 0 = query (fun k => Except.ok k) ∧
    (routesOfInstance (createRouter oneQueryRoutes freshState).1 = some oneQueryRoutes ∧
      (invokeUseQuery ((createRouter oneQueryRoutes freshState).2.heap 0) 7 none).queryKey =
        (some (fullKeyOf (natToString 0) ("a")), some 7)) :=
  ⟨by simp [oneQueryRoutes, RouteEntries.toList],
    by decide,
    rfl,
    composition_aliases_definition oneQueryRoutes freshState ("a") 0 _ 7 none
      (by simp [oneQueryRoutes, RouteEntries.toList]) (by decide) rfl⟩

/-- Counterexample to C3 as stated: composing the same single-leaf
definition twice (router ids 0 then 1) and then invoking the leaf publicly
uses the FIRST composition's key `0/a`, not the most recent composition's
key `1/a` — the second wrapper passes its prefix as a third argument to a
two-parameter function, which drops it. -/
theorem recomposition_counterexample :
    (invokeUseQuery
        ((createRouter oneQueryRoutes (createRouter oneQueryRoutes freshState).2).2.heap 0)
        5 none).queryKey = (some (fullKeyOf (natToString 0) ("a")), some 5) ∧
    (invokeUseQuery
        ((createRouter oneQueryRoutes (createRouter oneQueryRoutes freshState).2).2.heap 0)
        5 none).queryKey ≠ (some (fullKeyOf (natToString 1) ("a")), some 5) :=
  ⟨rfl, by decide⟩

/-- C3 (amended) — Re-composition is inert for public invocations: applying
the middleware a second time (via a second `createRouter` over the same
definition) wraps the leaf's slot again, but the new wrapper's prefix is
passed as the dropped third argument of the previous two-parameter wrapper,
so subsequent public `useQuery(args, options)` calls behave exactly as after
the first composition and keep the FIRST composition's prefix
(first-write-wins, not last-write-wins). -/
theorem recomposition_first_write_wins (routes : RouteEntries)
    (st : RouterState σ ρ ε) (n : String) (lid : Nat) (f : σ → Except ε ρ)
    (args : σ) (options : Option QueryOptions)
    (hmem : (n, RouteValue.q lid) ∈ routes.toList)
    (hnodup : (directQueryLids routes).Nodup)
    (hleaf : st.heap lid = query f) :
    invokeUseQuery ((createRouter routes (createRouter routes st).2).2.heap lid) args options =
      invokeUseQuery ((createRouter routes st).2.heap lid) args options ∧
    (invokeUseQuery ((createRouter routes (createRouter routes st).2).2.heap lid) args options).queryKey =
      (some (fullKeyOf (natToString st.routerCount) n), some args) := by
  have h1 : (createRouter routes st).2.heap lid =
      wrapUseQuery (st.heap lid) (fullKeyOf (natToString st.routerCount) n) :=
    mw_at_mem _ _ hnodup hmem
  have h2 : (createRouter routes (createRouter routes st).2).2.heap lid =
      wrapUseQuery ((createRouter routes st).2.heap lid)
        (fullKeyOf (natToString (st.routerCount + 1)) n) :=
    mw_at_mem _ _ hnodup hmem
  rw [h2, h1, hleaf]
  exact ⟨rfl, rfl⟩

/-- Witness for the amended C3 at a concrete input. -/
theorem recomposition_first_write_wins_witness :
    ((("a"), RouteValue.q 0) ∈ RouteEntries.toList oneQueryRoutes) ∧
    (directQueryLids oneQueryRoutes).Nodup ∧
    freshState.heap 0 = query (fun k => Except.ok k) ∧
    (invokeUseQuery
        ((createRouter oneQueryRoutes (createRouter oneQueryRoutes freshState).2).2.heap 0)
        5 none).queryKey = (some (fullKeyOf (natToString 0) ("a")), some 5) :=
  ⟨by simp [oneQueryRoutes, RouteEntries.toList],
    by decide,
    rfl,
    (recomposition_first_write_wins oneQueryRoutes freshState ("a") 0 _ 5 none
      (by simp [oneQueryRoutes, RouteEntries.toList]) (by decide) rfl).2⟩

end RouterTheorems

section ClientTheorems

variable {σ ρ : Type}

/-- C7 — setData/getData round trip: `setData(args, value)` stores `value`
under the cache key `[baseKey, args]` (second conjunct shows the stored
entry and its key), and an immediate `getData(args)` reads the identical key
and returns `value` exactly (first conjunct). No fetcher participates: the
accessor operations are built from `setQueryData`/`getQueryData` alone,
which act only on the stored cache list. -/
theorem setData_getData_roundtrip [DecidableEq σ] (baseKey : String)
    (args : σ) (value : ρ) (cl : QueryClient σ ρ) :
    (mkContextAccessor baseKey : ContextAccessor σ ρ).getData (some args)
      ((mkContextAccessor baseKey : ContextAccessor σ ρ).setData args value cl) = some value ∧
    ((mkContextAccessor baseKey : ContextAccessor σ ρ).setData args value cl).cache =
      ((some baseKey, some args), value) :: cl.cache := by
  constructor
  · simp [mkContextAccessor, getQueryData, setQueryData, lookupCache]
  · rfl

/-- Witness for C7 at a concrete input. -/
theorem setData_getData_roundtrip_witness :
    (mkContextAccessor ("0/a") : ContextAccessor Nat Nat).getData (some 3)
      ((mkContextAccessor ("0/a") : ContextAccessor Nat Nat).setData 3 42
        (QueryClient.mk [] [] [])) = some 42 ∧
    ((mkContextAccessor ("0/a") : ContextAccessor Nat Nat).setData 3 42
        (QueryClient.mk [] [] [])).cache =
      ((some ("0/a"), some 3), 42) :: (QueryClient.mk ([] : List ((Option String × Option Nat) × Nat)) [] []).cache :=
  setData_getData_roundtrip ("0/a") 3 42 (QueryClient.mk [] [] [])

end ClientTheorems

mutual

theorem createContext_shape_val {σ ρ : Type} [DecidableEq σ]
    (routerId name : String) (v : RouteValue) (restCtx : ContextEntries σ ρ) :
    ctxShapeEntries (createContextEntry routerId name v restCtx) =
      (match specShapeVal v with
        | some s => ShapeEntries.cons name s (ctxShapeEntries restCtx)
        | none => ctxShapeEntries restCtx) :=
  match v with
  | .q _ => rfl
  | .m _ => rfl
  | .r rid' routes' => by
    show ShapeEntries.cons name
        (ShapeVal.node (ctxShapeEntries (createContext routes' rid' : ContextEntries σ ρ)))
        (ctxShapeEntries restCtx) = _
    rw [createContext_shape_entries routes' rid']
    rfl

theorem createContext_shape_entries {σ ρ : Type} [DecidableEq σ]
    (routes : RouteEntries) (routerId : String) :
    ctxShapeEntries (createContext routes routerId : ContextEntries σ ρ) =
      specShapeEntries routes :=
  match routes with
  | .nil => rfl
  | .cons name v rest => by
    show ctxShapeEntries
        (createContextEntry routerId name v (createContext rest routerId : ContextEntries σ ρ)) = _
    rw [createContext_shape_val routerId name v (createContext rest routerId),
      createContext_shape_entries rest routerId]
    cases h : specShapeVal v <;> simp [specShapeEntries, h]

end

theorem mem_names_of_mem {routes : RouteEntries} {n : String} {v : RouteValue}
    (hm : (n, v) ∈ routes.toList) : n ∈ routes.toList.map Prod.fst :=
  List.mem_map_of_mem Prod.fst hm

theorem createContext_lookup_q {σ ρ : Type} [DecidableEq σ]
    (routes : RouteEntries) (routerId : String)
    (hnodup : (routes.toList.map Prod.fst).Nodup) {n : String} {lid : Nat}
    (hmem : (n, RouteValue.q lid) ∈ routes.toList) :
    lookupCtx n (createContext routes routerId : ContextEntries σ ρ) =
      some (ContextValue.leaf (mkContextAccessor (fullKeyOf routerId n))) := by
  induction routes using RouteEntries.indOn with
  | hnil => simp [RouteEntries.toList] at hmem
  | hcons name v rest ih =>
    rw [RouteEntries.toList, List.mem_cons] at hmem
    rw [RouteEntries.toList, List.map_cons, List.nodup_cons] at hnodup
    rcases hmem with he | hm
    · rw [Prod.mk.injEq] at he
      obtain ⟨hn, hv⟩ := he
      rw [createContext, ← hv, createContextEntry, lookupCtx, if_pos hn, hn]
    · have hne : n ≠ name := by
        intro heq
        exact hnodup.1 (heq ▸ mem_names_of_mem hm)
      cases v with
      | q l =>
        rw [createContext, createContextEntry, lookupCtx, if_neg hne]
        exact ih hnodup.2 hm
      | m x =>
        rw [createContext, createContextEntry]
        exact ih hnodup.2 hm
      | r a b =>
        rw [createContext, createContextEntry, lookupCtx, if_neg hne]
        exact ih hnodup.2 hm

theorem createContext_lookup_r {σ ρ : Type} [DecidableEq σ]
    (routes : RouteEntries) (routerId : String)
    (hnodup : (routes.toList.map Prod.fst).Nodup)
    {n rid' : String} {rs' : RouteEntries}
    (hmem : (n, RouteValue.r rid' rs') ∈ routes.toList) :
    lookupCtx n (createContext routes routerId : ContextEntries σ ρ) =
      some (ContextValue.node (createContext rs' rid')) := by
  induction routes using RouteEntries.indOn with
  | hnil => simp [RouteEntries.toList] at hmem
  | hcons name v rest ih =>
    rw [RouteEntries.toList, List.mem_cons] at hmem
    rw [RouteEntries.toList, List.map_cons, List.nodup_cons] at hnodup
    rcases hmem with he | hm
    · rw [Prod.mk.injEq] at he
      obtain ⟨hn, hv⟩ := he
      rw [createContext, ← hv, createContextEntry, lookupCtx, if_pos hn]
    · have hne : n ≠ name := by
        intro heq
        exact hnodup.1 (heq ▸ mem_names_of_mem hm)
      cases v with
      | q l =>
        rw [createContext, createContextEntry, lookupCtx, if_neg hne]
        exact ih hnodup.2 hm
      | m x =>
        rw [createContext, createContextEntry]
        exact ih hnodup.2 hm
      | r a b =>
        rw [createContext, createContextEntry, lookupCtx, if_neg hne]
        exact ih hnodup.2 hm

/-- C5 — Context tree shape and scope: the generated context tree's shape is
exactly the instance's shape minus mutation leaves (first conjunct, against
the spec-side shape function); every query leaf named `n` is a
`{getData, setData, cancel, invalidate}` accessor all of whose operations
address keys under `routerId + '/' + n` (second conjunct); every nested
router instance contributes the tree produced from its own stored routes and
its own router id — never the parent's (third conjunct). -/
theorem context_tree_shape_and_scope {σ ρ : Type} [DecidableEq σ]
    (routes : RouteEntries) (routerId : String)
    (hnodup : (routes.toList.map Prod.fst).Nodup) :
    ctxShapeEntries (createContext routes routerId : ContextEntries σ ρ) =
      specShapeEntries routes ∧
    (∀ n lid, (n, RouteValue.q lid) ∈ routes.toList →
      lookupCtx n (createContext routes routerId : ContextEntries σ ρ) =
        some (ContextValue.leaf (mkContextAccessor (fullKeyOf routerId n)))) ∧
    (∀ n rid' rs', (n, RouteValue.r rid' rs') ∈ routes.toList →
      lookupCtx n (createContext routes routerId : ContextEntries σ ρ) =
        some (ContextValue.node (createContext rs' rid'))) :=
  ⟨createContext_shape_entries routes routerId,
    fun _ _ hmem => createContext_lookup_q routes routerId hnodup hmem,
    fun _ _ _ hmem => createContext_lookup_r routes routerId hnodup hmem⟩

/-- Witness for C5 at a concrete input. -/
theorem context_tree_shape_and_scope_witness :
    ((demoRoutes.toList.map Prod.fst).Nodup) ∧
    (ctxShapeEntries (createContext demoRoutes ("7") : ContextEntries Nat Nat) =
      specShapeEntries demoRoutes ∧
    (∀ n lid, (n, RouteValue.q lid) ∈ demoRoutes.toList →
      lookupCtx n (createContext demoRoutes ("7") : ContextEntries Nat Nat) =
        some (ContextValue.leaf (mkContextAccessor (fullKeyOf ("7") n)))) ∧
    (∀ n rid' rs', (n, RouteValue.r rid' rs') ∈ demoRoutes.toList →
      lookupCtx n (createContext demoRoutes ("7") : ContextEntries Nat Nat) =
        some (ContextValue.node (createContext rs' rid')))) :=
  ⟨by simp [demoRoutes, RouteEntries.toList],
    context_tree_shape_and_scope demoRoutes ("7")
      (by simp [demoRoutes, RouteEntries.toList])⟩

end RSQ
